import Mathlib

/-!
Verification development for the `trnscrb` repository.

The Lean definitions below are shallow embeddings of the Python source:

* `Trnscrb.step` / `Trnscrb.runW`   — the 4-state presence machine of
  `src/trnscrb/watcher.py` (`MicWatcher._loop`).  Each loop iteration is one
  tick; the wall-clock reading `datetime.now()` of an iteration is supplied
  as the input field `now` (in seconds), and the results of the external
  boolean probes `is_mic_in_use()` / `is_meeting_app_running()` are the input
  fields `active` / `app`.  Elapsed times are `datetime` differences in the
  source; negative differences compare below every positive threshold there,
  and truncated `Nat` subtraction yields the same comparison results.
* `Trnscrb.applyAct` — `MicWatcher.start` / `MicWatcher.stop` layered on top
  of the loop (the `_app_counter` loop local becomes part of the state and is
  reinitialised to 0 when a new loop thread is spawned by `start`).
* `Trnscrb.Recorder.*` — `src/trnscrb/recorder.py`.  The `sounddevice`
  stream object is represented by a fresh identifier; `openStreams` records
  the identifiers of streams that have been opened and not closed, so that
  resource-leak statements are expressible.
* `Trnscrb.merge` — `src/trnscrb/diarizer.py::merge`, with times as `ℚ`.
* `Trnscrb.format_transcript`, `Trnscrb.fmt_time`, `Trnscrb.processAudio`,
  `Trnscrb.start_recording`, `Trnscrb.stop_recording` —
  `src/trnscrb/storage.py` and `src/trnscrb/mcp_server.py`.  A `datetime`
  value is abstracted to its two `strftime` renderings (header and filename
  forms); the tool-call return strings are represented by outcome
  enumerations, and the background `_process_audio` thread body is the pure
  state transformer `processAudio` over the module-level state.
-/

set_option maxRecDepth 4000

namespace Trnscrb

/-! ### Presence state machine (`watcher.py`) -/

/-- The four values of `MicWatcher._state`: `"idle" | "warming" | "recording"
    | "cooling"` (the spec calls `recording` the `Active` state). -/
inductive PState
  | idle
  | warming
  | recording
  | cooling
deriving DecidableEq

/-- The two edge callbacks of `MicWatcher`: `on_start` (ConversationStarted)
    and `on_stop` (ConversationEnded). -/
inductive Event
  | started
  | stopped
deriving DecidableEq

/-- One poll-loop iteration's environment inputs: the `datetime.now()`
    reading (seconds), `is_mic_in_use()` and `is_meeting_app_running()`. -/
structure TickIn where
  now : Nat
  active : Bool
  app : Bool
deriving DecidableEq

/-- The mutable fields read and written by `MicWatcher._loop`, plus the loop
    local `_app_counter`. -/
structure WState where
  state : PState
  since : Option Nat
  recStarted : Option Nat
  noAppPolls : Nat
  appCounter : Nat
deriving DecidableEq

def WARMUP_SECS : Nat := 5
def GRACE_SECS : Nat := 5
def MIN_SAVE_SECS : Nat := 30
def APP_POLL_EVERY : Nat := 4
def APP_GONE_POLLS : Nat := 3

/-- Embedding of `elapsed = (now - self._since).total_seconds() if self._since else 0`. -/
def elapsedOf (s : WState) (now : Nat) : Nat :=
  match s.since with
  | some x => now - x
  | none => 0

/-- One iteration of `MicWatcher._loop` (lines 130-197 of `watcher.py`),
    returning the updated state and the callbacks fired in that iteration. -/
def step (s : WState) (i : TickIn) : WState × List Event :=
  let elapsed := elapsedOf s i.now
  match s.state with
  | PState.idle =>
      if i.active then
        ({ s with state := PState.warming, since := some i.now, noAppPolls := 0 }, [])
      else (s, [])
  | PState.warming =>
      if !i.active then
        ({ s with state := PState.idle, since := none }, [])
      else if WARMUP_SECS ≤ elapsed then
        ({ s with recStarted := some i.now, state := PState.recording,
                  since := some i.now, noAppPolls := 0,
                  appCounter := APP_POLL_EVERY }, [Event.started])
      else (s, [])
  | PState.recording =>
      if !i.active then
        ({ s with state := PState.cooling, since := some i.now, noAppPolls := 0 }, [])
      else
        let c := s.appCounter + 1
        if APP_POLL_EVERY ≤ c then
          if i.app then
            ({ s with appCounter := 0, noAppPolls := 0 }, [])
          else
            let n := s.noAppPolls + 1
            if APP_GONE_POLLS ≤ n then
              ({ s with appCounter := 0, state := PState.cooling,
                        since := some i.now, noAppPolls := 0 }, [])
            else ({ s with appCounter := 0, noAppPolls := n }, [])
        else ({ s with appCounter := c }, [])
  | PState.cooling =>
      if i.active && i.app then
        ({ s with state := PState.recording, since := some i.now,
                  noAppPolls := 0, appCounter := APP_POLL_EVERY }, [])
      else if GRACE_SECS ≤ elapsed then
        let duration := match s.recStarted with
          | some r => i.now - r
          | none => 0
        ({ s with state := PState.idle, since := none, recStarted := none,
                  noAppPolls := 0 },
         if MIN_SAVE_SECS ≤ duration then [Event.stopped] else [])
      else (s, [])

/-- The state the loop starts in after `MicWatcher.start`. -/
def initWState : WState :=
  { state := PState.idle, since := none, recStarted := none,
    noAppPolls := 0, appCounter := 0 }

/-- Run the poll loop over a list of tick inputs, collecting fired events. -/
def runW : WState → List TickIn → WState × List Event
  | s, [] => (s, [])
  | s, i :: rest =>
      let p := step s i
      let q := runW p.1 rest
      (q.1, p.2 ++ q.2)

/-- The whole `MicWatcher` object: the `_running` flag plus the loop state. -/
structure MState where
  running : Bool
  w : WState
deriving DecidableEq

/-- External interactions with a `MicWatcher`: a poll-loop iteration (which
    only happens while `_running`), `start()` and `stop()`. -/
inductive WAct
  | tick (i : TickIn)
  | startWatcher
  | stopWatcher
deriving DecidableEq

/-- Embedding of `MicWatcher.start` (no-op while running, otherwise resets `_state`,
    `_since`, `_no_app_polls` and spawns a loop thread whose `_app_counter`
    local starts at 0; `_rec_started` is not reset), `MicWatcher.stop`
    (clears `_running`), and one loop iteration. -/
def applyAct (m : MState) : WAct → MState × List Event
  | WAct.tick i =>
      if m.running then
        let p := step m.w i
        ({ m with w := p.1 }, p.2)
      else (m, [])
  | WAct.startWatcher =>
      if m.running then (m, [])
      else
        ({ running := true,
           w := { state := PState.idle, since := none,
                  recStarted := m.w.recStarted, noAppPolls := 0,
                  appCounter := 0 } }, [])
  | WAct.stopWatcher => ({ m with running := false }, [])

/-- The state right after `MicWatcher.__init__`. -/
def initMState : MState := { running := false, w := initWState }

/-- Run a sequence of watcher interactions. -/
def runActs : MState → List WAct → MState × List Event
  | m, [] => (m, [])
  | m, a :: rest =>
      let p := applyAct m a
      let q := runActs p.1 rest
      (q.1, p.2 ++ q.2)

/-! ### Speaker merge (`diarizer.py`) -/

/-- A transcription segment `{start, end, text, speaker}` (the Python dict
    key `"end"` is the field `stop`; `"speaker"` is `None` or a string). -/
structure Seg where
  start : ℚ
  stop : ℚ
  text : String
  speaker : Option String
deriving DecidableEq

/-- A diarization turn `{start, end, speaker}`. -/
structure Turn where
  start : ℚ
  stop : ℚ
  speaker : String
deriving DecidableEq

/-- Python `min` / `max` of two values, written out so that they evaluate
    by kernel reduction. -/
def pymin (a b : ℚ) : ℚ := if a ≤ b then a else b

def pymax (a b : ℚ) : ℚ := if b ≤ a then a else b

/-- Source: `overlap = min(seg["end"], d["end"]) - max(seg["start"], d["start"])`. -/
def ovl (seg : Seg) (d : Turn) : ℚ :=
  pymin seg.stop d.stop - pymax seg.start d.start

/-- The inner loop of `merge`: fold over the diarization turns carrying
    `(best_speaker, best_overlap)`, updating on `overlap > best_overlap`. -/
def bestLoop (seg : Seg) : List Turn → Option String × ℚ → Option String × ℚ
  | [], acc => acc
  | d :: rest, acc =>
      let o := ovl seg d
      if acc.2 < o then bestLoop seg rest (some d.speaker, o)
      else bestLoop seg rest acc

/-- Python `x or dflt` on an optional string: `None` and `""` are falsy. -/
def pythonOr (o : Option String) (dflt : String) : String :=
  match o with
  | some s => if s = "" then dflt else s
  | none => dflt

/-- Source: `seg["speaker"] = best_speaker or "Unknown"` for one segment. -/
def mergeSeg (seg : Seg) (diarization : List Turn) : Seg :=
  { seg with
    speaker := some (pythonOr (bestLoop seg diarization (none, 0)).1 ("Unknown")) }

/-- Embedding of `diarizer.merge(transcript, diarization)` (lines 32-43 of
    `diarizer.py`); each segment's speaker field is (re)assigned. -/
def merge (transcript : List Seg) (diarization : List Turn) : List Seg :=
  transcript.map (fun seg => mergeSeg seg diarization)

/-- The assignment described by the specification's words (§4.4): the label
    of the first turn whose overlap is strictly positive and not exceeded by
    any turn's overlap; `"Unknown"` when no turn has positive overlap. -/
def specC2Label (seg : Seg) (turns : List Turn) : String :=
  match turns.find?
      (fun d => decide (0 < ovl seg d ∧ ∀ e ∈ turns, ovl seg e ≤ ovl seg d)) with
  | some d => d.speaker
  | none => "Unknown"

/-! ### Transcript formatting (`storage.py`) -/

/-- Embedding of `_fmt_time`: `int()` truncation toward zero, Python `divmod(n, 60)`
    (floor division / nonnegative remainder for the positive divisor), and
    `f"{m:02d}:{s:02d}"` zero padding to width 2. -/
def pyTrunc (q : ℚ) : Int :=
  if 0 ≤ q then Int.floor q else -Int.floor (-q)

def pad2 (n : Int) : String :=
  let s := toString n
  if s.length < 2 then String.append ("0") s else s

def fmt_time (seconds : ℚ) : String :=
  let n := pyTrunc seconds
  String.append (pad2 (Int.ediv n 60)) (String.append (":") (pad2 (Int.emod n 60)))

/-- Source: `"=" * 60`. -/
def sepLine : String := String.mk (List.replicate 60 '=')

/-- The body loop of `format_transcript`: a `[speaker]` heading (preceded by
    a blank line except for the first heading) whenever the speaker changes,
    then `"  {time}  {text}"` for each segment. -/
def bodyLines : List Seg → Option String → List String
  | [], _ => []
  | seg :: rest, cur =>
      let sp := pythonOr seg.speaker ("Unknown")
      if cur = some sp then
        (String.append ("  ") (String.append (fmt_time seg.start)
          (String.append ("  ") seg.text))) :: bodyLines rest cur
      else
        (if cur = none then [] else [""]) ++
        (String.append ("[") (String.append sp ("]"))) ::
        (String.append ("  ") (String.append (fmt_time seg.start)
          (String.append ("  ") seg.text))) :: bodyLines rest (some sp)

/-- Embedding of `storage.format_transcript(segments, started_at, meeting_name)`;
    `started_at.strftime("%Y-%m-%d %H:%M")` is passed pre-rendered as
    `dateHeader`. -/
def format_transcript (segments : List Seg) (dateHeader meetingName : String) :
    String :=
  let duration := match segments.getLast? with
    | some seg => fmt_time seg.stop
    | none => "00:00"
  String.intercalate ("\n")
    ([String.append ("Meeting: ") meetingName,
      String.append ("Date:    ") dateHeader,
      String.append ("Duration:") duration,
      "", sepLine, ""] ++ bodyLines segments none)

/-- Embedding of `storage.get_transcript_path` filename: `f"{date_str}_{safe_name}.txt"`
    with spaces and slashes replaced by dashes and the name clipped to 50
    characters; `started_at.strftime("%Y-%m-%d_%H-%M")` is passed
    pre-rendered as `dateFile`. -/
def transcriptFileName (meetingName dateFile : String) : String :=
  String.append dateFile
    (String.append ("_")
      (String.append
        (((meetingName.replace (" ") ("-")).replace ("/") ("-")).take 50)
        (".txt")))

/-! ### Audio capture (`recorder.py`) -/

namespace Recorder

/-- The fields of a `Recorder` object.  An open `sounddevice.InputStream`
    is represented by an identifier drawn from the counter `nextId`;
    `openStreams` lists every stream opened and not yet closed (the OS
    resource table), so leaks are observable.  A frame is one float block. -/
structure RecSt where
  device : Option Nat
  recording : Bool
  frames : List (List ℚ)
  stream : Option Nat
  openStreams : List Nat
  nextId : Nat
deriving DecidableEq

/-- Embedding of `Recorder.__init__(device)`. -/
def init (device : Option Nat) : RecSt :=
  { device := device, recording := false, frames := [], stream := none,
    openStreams := [], nextId := 0 }

/-- Embedding of `Recorder.start` (lines 28-39): reset `_frames`, set `_recording`,
    open and start a new stream.  The previous value of `_stream` is simply
    overwritten — nothing stops or closes it. -/
def start (s : RecSt) : RecSt :=
  { s with frames := [], recording := true, stream := some s.nextId,
           openStreams := s.openStreams ++ [s.nextId], nextId := s.nextId + 1 }

/-- Embedding of `Recorder._callback`: append a copy of the incoming block while
    `_recording` (the append happens under `_lock`). -/
def callback (s : RecSt) (indata : List ℚ) : RecSt :=
  if s.recording then { s with frames := s.frames ++ [indata] } else s

/-- Source: `(audio * 32_767).astype(np.int16)` on one sample: scale, truncate
    toward zero, wrap into the 16-bit two's-complement range. -/
def toInt16 (x : ℚ) : Int :=
  (pyTrunc (x * 32767) + 32768) % 65536 - 32768

/-- Embedding of `Recorder.stop` (lines 41-60): clear `_recording`, stop/close/drop the
    stream if one is open, drain the frames under the lock, and return
    `None` when no frames were captured, else the concatenated quantized
    clip (the temporary WAV file's contents). -/
def stop (s : RecSt) : RecSt × Option (List Int) :=
  let s1 := { s with recording := false }
  let s2 := match s1.stream with
    | some i => { s1 with stream := none, openStreams := s1.openStreams.erase i }
    | none => s1
  if s2.frames = [] then (s2, none)
  else (s2, some ((s2.frames.flatten).map toInt16))

end Recorder

/-! ### MCP server tools and background pipeline (`mcp_server.py`) -/

/-- The module-level state of `mcp_server.py` that the recording tools and
    the background `_process_audio` thread share: whether `_recorder` holds
    a live recording, the `_processing` / `_last_result` / `_last_error`
    slots, the set of transcript files written (`storage.save_transcript`),
    whether the temporary clip file still exists, and the number of
    `_process_audio` threads currently alive. -/
structure McpSt where
  recorderActive : Bool
  processing : Bool
  lastResult : Option String
  lastError : Option String
  clipExists : Bool
  writes : List (String × String)
  inFlight : Nat
deriving DecidableEq

def initMcp : McpSt :=
  { recorderActive := false, processing := false, lastResult := none,
    lastError := none, clipExists := false, writes := [], inFlight := 0 }

/-- Return value of the `start_recording` tool. -/
inductive StartOutcome
  | alreadyRecording
  | started
deriving DecidableEq

/-- Return value of the `stop_recording` tool: `"Not currently recording."`,
    `"Recording stopped but no audio was captured."`, or the
    `"Recording stopped. ... Transcription is running in the background."`
    message (the submission was accepted and a worker thread spawned). -/
inductive StopOutcome
  | notRecording
  | noAudio
  | accepted
deriving DecidableEq

/-- Embedding of `start_recording` (lines 43-55): rejected only when a recorder is
    already recording; otherwise a fresh recorder is started. -/
def start_recording (s : McpSt) : McpSt × StartOutcome :=
  if s.recorderActive then (s, StartOutcome.alreadyRecording)
  else ({ s with recorderActive := true }, StartOutcome.started)

/-- Embedding of `stop_recording` (lines 58-99): rejected only when not recording; with
    captured audio it sets `_processing = True`, clears the result/error
    slots, spawns a `_process_audio` thread and returns immediately.  No
    check of `_processing` is made. -/
def stop_recording (s : McpSt) (hasAudio : Bool) : McpSt × StopOutcome :=
  if !s.recorderActive then (s, StopOutcome.notRecording)
  else if !hasAudio then
    ({ s with recorderActive := false }, StopOutcome.noAudio)
  else
    ({ s with recorderActive := false, processing := true, lastResult := none,
              lastError := none, clipExists := true,
              inFlight := s.inFlight + 1 }, StopOutcome.accepted)

/-- Source: `transcript_text[:800] + ("…" if len(transcript_text) > 800 else "")`. -/
def previewOf (text : String) : String :=
  String.append (text.take 800) (if 800 < text.length then "…" else "")

/-- Embedding of `_process_audio(audio_path, started_at, meeting_name)` (lines 215-240)
    as a pure transformer of the shared state.  The external calls are the
    parameters: `tr` is the outcome of `transcriber.transcribe`, `hf` the
    value of `_read_hf_token()`, `dr` the outcome of `diarizer.diarize`
    (consulted only when a token exists and segments are non-empty; its
    failure is swallowed), and `saveErr` the outcome of the format/persist
    step (`none` = written durably).  Any raised error lands in the
    `except` branch: the clip is unlinked and `_last_error` set.  The clip
    is unlinked before formatting in the success path, and `_processing` is
    cleared in `finally`. -/
def processAudio (st : McpSt) (tr : Except String (List Seg))
    (hf : Option String) (dr : Except String (List Turn))
    (dateHeader dateFile meetingName : String) (saveErr : Option String) :
    McpSt :=
  match tr with
  | Except.error e =>
      { st with processing := false, lastError := some e, clipExists := false }
  | Except.ok segs0 =>
      let segs := match hf with
        | some _ =>
            match segs0 with
            | [] => segs0
            | _ :: _ =>
                match dr with
                | Except.ok diar => merge segs0 diar
                | Except.error _ => segs0
        | none => segs0
      let text := format_transcript segs dateHeader meetingName
      let fname := transcriptFileName meetingName dateFile
      match saveErr with
      | none =>
          { st with processing := false, clipExists := false,
                    writes := st.writes ++ [(fname, text)],
                    lastResult := some (String.append ("Saved: ")
                      (String.append fname
                        (String.append ("\n\n") (previewOf text)))) }
      | some e =>
          { st with processing := false, clipExists := false,
                    lastError := some e }

/-! ### Derived notions used by the statements below -/

/-- A session is in flight: the machine is in `recording` or `cooling`. -/
def inSession (s : WState) : Bool :=
  match s.state with
  | PState.recording => true
  | PState.cooling => true
  | _ => false

/-- Predicate delimiting one `Idle→...→Idle` traversal: running from `s`,
    the machine is never found in `idle` after a proper non-empty prefix of
    the input — a traversal begins when `idle` is left and ends when it is
    re-entered, which the input permits only at the very end of the run
    (the run may also stop before the traversal completes). -/
def noMidIdle (s : WState) (inputs : List TickIn) : Prop :=
  ∀ k, 0 < k → k < inputs.length →
    (runW s (inputs.take k)).1.state ≠ PState.idle

/-- Default tick used with `List.getD`. -/
def tick0 : TickIn := { now := 0, active := false, app := false }

/-- Every window of consecutive mic-active ticks spans fewer than
    `WARMUP_SECS` seconds: the mic-active signal never stays true for
    `WARMUP_SECS` seconds before going false. -/
def noLongActiveRun (inputs : List TickIn) : Prop :=
  ∀ i, i < inputs.length → ∀ j, j < inputs.length → i ≤ j →
    (∀ k, k < inputs.length → i ≤ k → k ≤ j →
      (inputs.getD k tick0).active = true) →
    (inputs.getD j tick0).now - (inputs.getD i tick0).now < WARMUP_SECS

/-- Relative form of `noLongActiveRun` used while inducting: if the first
    `j + 1` ticks of the remaining input are all active then the `j`-th one
    is still within `WARMUP_SECS` seconds of the warming entry time `t0`. -/
def warmSpanOk (t0 : Nat) (u : List TickIn) : Prop :=
  ∀ j, j < u.length →
    (∀ k, k < u.length → k ≤ j → (u.getD k tick0).active = true) →
    (u.getD j tick0).now - t0 < WARMUP_SECS

/-- Concrete input trace for the `MIN_SAVE_SECS` analysis: one tick per
    second, mic active with a meeting app present for ticks 0-30, then mic
    silent from tick 31 on. -/
def c1Inputs : List TickIn :=
  (List.range 37).map
    (fun k => { now := k, active := decide (k < 31), app := decide (k < 31) })

/-! ### Theorems -/

theorem sinceInv_step (s : WState) (i : TickIn)
    (h : s.since.isSome = true ↔ s.state ≠ PState.idle) :
    (step s i).1.since.isSome = true ↔ (step s i).1.state ≠ PState.idle := by
  cases hst : s.state <;>
    simp only [step, hst] <;>
    split_ifs <;>
    simp_all

theorem sinceInv_applyAct (m : MState) (a : WAct)
    (h : m.w.since.isSome = true ↔ m.w.state ≠ PState.idle) :
    (applyAct m a).1.w.since.isSome = true ↔
      (applyAct m a).1.w.state ≠ PState.idle := by
  cases a with
  | tick i =>
      by_cases hr : m.running <;> simp only [applyAct, hr, if_true, if_false]
      · exact sinceInv_step m.w i h
      · exact h
  | startWatcher =>
      by_cases hr : m.running <;> simp only [applyAct, hr, if_true, if_false]
      · exact h
      · simp
  | stopWatcher => exact h

theorem sinceInv_runActs (m : MState) (acts : List WAct)
    (h : m.w.since.isSome = true ↔ m.w.state ≠ PState.idle) :
    (runActs m acts).1.w.since.isSome = true ↔
      (runActs m acts).1.w.state ≠ PState.idle := by
  induction acts generalizing m with
  | nil => exact h
  | cons a rest ih => exact ih _ (sinceInv_applyAct m a h)

/-- Claim C9: in every state reachable from `MicWatcher.__init__` via any
    sequence of poll-loop iterations and `start()` / `stop()` calls, the
    entry timestamp `_since` is non-null exactly in the `warming`,
    `recording` (Active) and `cooling` states, and null exactly in `idle`. -/
theorem c9_since_invariant (acts : List WAct) :
    (((runActs initMState acts).1.w.state = PState.warming ∨
      (runActs initMState acts).1.w.state = PState.recording ∨
      (runActs initMState acts).1.w.state = PState.cooling) ↔
      (runActs initMState acts).1.w.since.isSome = true) ∧
    ((runActs initMState acts).1.w.state = PState.idle ↔
      (runActs initMState acts).1.w.since = none) := by
  have h := sinceInv_runActs initMState acts (by simp [initMState, initWState])
  generalize hw : (runActs initMState acts).1.w = w at h ⊢
  constructor
  · rw [h]
    cases w.state <;> simp
  · cases hs : w.since <;> cases hq : w.state <;> simp_all

/-- Witness for C9 at the concrete interaction sequence `[start()]`. -/
theorem c9_witness :
    (((runActs initMState [WAct.startWatcher]).1.w.state = PState.warming ∨
      (runActs initMState [WAct.startWatcher]).1.w.state = PState.recording ∨
      (runActs initMState [WAct.startWatcher]).1.w.state = PState.cooling) ↔
      (runActs initMState [WAct.startWatcher]).1.w.since.isSome = true) ∧
    ((runActs initMState [WAct.startWatcher]).1.w.state = PState.idle ↔
      (runActs initMState [WAct.startWatcher]).1.w.since = none) :=
  c9_since_invariant [WAct.startWatcher]


theorem stepCases (s : WState) (i : TickIn) :
    ((step s i).2 = [] ∧ inSession (step s i).1 = inSession s) ∨
    ((step s i).2 = [Event.started] ∧ inSession s = false ∧
      inSession (step s i).1 = true) ∨
    ((step s i).2 = [Event.stopped] ∧ inSession s = true ∧
      inSession (step s i).1 = false) ∨
    ((step s i).2 = [] ∧ inSession s = true ∧
      inSession (step s i).1 = false) := by
  cases hst : s.state <;>
    simp only [step, hst, inSession] <;>
    split_ifs <;>
    simp_all

theorem inSession_false (s : WState) (h : inSession s = false) :
    s.state = PState.idle ∨ s.state = PState.warming := by
  cases hst : s.state <;> simp_all [inSession]

theorem inSession_of_state (s : WState)
    (h : s.state = PState.idle ∨ s.state = PState.warming) :
    inSession s = false := by
  rcases h with h | h <;> simp [inSession, h]

theorem sessionExit_idle (s : WState) (i : TickIn)
    (h1 : inSession s = true) (h2 : inSession (step s i).1 = false) :
    (step s i).1.state = PState.idle := by
  cases hst : s.state <;>
    simp only [step, hst, inSession] at h1 h2 ⊢ <;>
    split_ifs at h2 ⊢ <;>
    simp_all

theorem noMidIdle_tail (s : WState) (t : TickIn) (u : List TickIn)
    (h : noMidIdle s (t :: u)) : noMidIdle (step s t).1 u := by
  intro k hk0 hku
  have h2 := h (k + 1) (by omega)
    (by simp only [List.length_cons]; omega)
  have h3 : (runW s ((t :: u).take (k + 1))).1 =
      (runW (step s t).1 (u.take k)).1 := by
    rw [List.take_succ_cons]
    rfl
  rw [h3] at h2
  exact h2

theorem noMidIdle_head (s : WState) (t : TickIn) (u : List TickIn)
    (h : noMidIdle s (t :: u)) (hne : u ≠ []) :
    (step s t).1.state ≠ PState.idle := by
  have hlen : 0 < u.length := List.length_pos.mpr hne
  have h1 := h 1 (by omega) (by simp only [List.length_cons]; omega)
  have h3 : (runW s ((t :: u).take 1)).1 = (step s t).1 := rfl
  rw [h3] at h1
  exact h1

theorem step_started (s : WState) (i : TickIn)
    (h : Event.started ∈ (step s i).2) :
    s.state = PState.warming ∧ (step s i).1.state = PState.recording := by
  cases hst : s.state <;>
    simp only [step, hst] <;>
    split_ifs <;>
    simp_all [step, hst]

theorem sessionRun_events (inputs : List TickIn) (s : WState)
    (hB : inSession s = true) (hmid : noMidIdle s inputs) :
    (runW s inputs).2 = [] ∨ (runW s inputs).2 = [Event.stopped] := by
  induction inputs generalizing s with
  | nil => exact Or.inl rfl
  | cons t u ih =>
      show (step s t).2 ++ (runW (step s t).1 u).2 = [] ∨
        (step s t).2 ++ (runW (step s t).1 u).2 = [Event.stopped]
      rcases stepCases s t with ⟨he, hs⟩ | ⟨he, hs0, _⟩ | ⟨he, _, hs1⟩ | ⟨he, _, hs1⟩
      · rw [he, List.nil_append]
        exact ih _ (hs.trans hB) (noMidIdle_tail s t u hmid)
      · rw [hB] at hs0
        exact absurd hs0 (by simp)
      · by_cases hu : u = []
        · subst hu
          rw [he]
          exact Or.inr rfl
        · exact absurd (sessionExit_idle s t hB hs1)
            (noMidIdle_head s t u hmid hu)
      · by_cases hu : u = []
        · subst hu
          rw [he]
          exact Or.inl rfl
        · exact absurd (sessionExit_idle s t hB hs1)
            (noMidIdle_head s t u hmid hu)

theorem reach_session_started (inputs : List TickIn) (s : WState)
    (h0 : inSession s = false)
    (h1 : ∃ k, k ≤ inputs.length ∧
      inSession (runW s (inputs.take k)).1 = true) :
    Event.started ∈ (runW s inputs).2 := by
  induction inputs generalizing s with
  | nil =>
      obtain ⟨k, hk, hsess⟩ := h1
      have hk0 : k = 0 := by simpa using hk
      subst hk0
      rw [show (runW s (([] : List TickIn).take 0)).1 = s from rfl, h0]
        at hsess
      exact absurd hsess (by simp)
  | cons t u ih =>
      obtain ⟨k, hk, hsess⟩ := h1
      show Event.started ∈ (step s t).2 ++ (runW (step s t).1 u).2
      cases k with
      | zero =>
          rw [show (runW s ((t :: u).take 0)).1 = s from rfl, h0] at hsess
          exact absurd hsess (by simp)
      | succ k1 =>
          rw [List.take_succ_cons] at hsess
          have hsess2 : inSession (runW (step s t).1 (u.take k1)).1 = true :=
            hsess
          rcases stepCases s t with
            ⟨he, hs⟩ | ⟨he, _, _⟩ | ⟨he, hs0, _⟩ | ⟨he, hs0, _⟩
          · rw [he, List.nil_append]
            refine ih _ (hs.trans h0) ⟨k1, ?_, hsess2⟩
            simp only [List.length_cons] at hk
            omega
          · rw [he]
            exact List.mem_append_left _ (List.mem_singleton.mpr rfl)
          · rw [h0] at hs0
            exact absurd hs0 (by simp)
          · rw [h0] at hs0
            exact absurd hs0 (by simp)

theorem traversal_events (inputs : List TickIn) (s : WState)
    (hA : s.state = PState.idle ∨ s.state = PState.warming)
    (hmid : noMidIdle s inputs) :
    (runW s inputs).2 = [] ∨ (runW s inputs).2 = [Event.started] ∨
      (runW s inputs).2 = [Event.started, Event.stopped] := by
  induction inputs generalizing s with
  | nil => exact Or.inl rfl
  | cons t u ih =>
      have h0 : inSession s = false := inSession_of_state s hA
      show (step s t).2 ++ (runW (step s t).1 u).2 = [] ∨
        (step s t).2 ++ (runW (step s t).1 u).2 = [Event.started] ∨
        (step s t).2 ++ (runW (step s t).1 u).2 =
          [Event.started, Event.stopped]
      rcases stepCases s t with
        ⟨he, hs⟩ | ⟨he, _, hs1⟩ | ⟨he, hs0, _⟩ | ⟨he, hs0, _⟩
      · rw [he, List.nil_append]
        by_cases hu : u = []
        · subst hu
          exact Or.inl rfl
        · have hout : inSession (step s t).1 = false := hs.trans h0
          have hwarm : (step s t).1.state = PState.warming := by
            rcases inSession_false _ hout with h | h
            · exact absurd h (noMidIdle_head s t u hmid hu)
            · exact h
          exact ih _ (Or.inr hwarm) (noMidIdle_tail s t u hmid)
      · rw [he]
        rcases sessionRun_events u (step s t).1 hs1
            (noMidIdle_tail s t u hmid) with h | h
        · rw [h]
          exact Or.inr (Or.inl rfl)
        · rw [h]
          exact Or.inr (Or.inr rfl)
      · rw [h0] at hs0
        exact absurd hs0 (by simp)
      · rw [h0] at hs0
        exact absurd hs0 (by simp)

/-- Claim C3: per `Idle→...→Idle` traversal, `on_start` fires exactly once
    if the traversal reaches `recording` (Active) and `on_stop` at most
    once.  Formally: for every run that starts in `idle` and never returns
    to `idle` strictly inside the run (one traversal; leading quiet ticks
    would keep the machine in `idle` and belong to no traversal), the
    emitted event list is `[]`, `[started]`, or `[started, stopped]` — so
    `started` fires at most once (a `cooling→recording` resume never
    re-fires it), `stopped` at most once and never before `started` — and
    if the machine is in `recording`/`cooling` after any prefix of the run
    then `started` fired exactly once.  Moreover `started` is only ever
    emitted at the `warming→recording` (Warming→Active) transition. -/
theorem c3_events_per_traversal :
    (∀ (inputs : List TickIn) (s : WState), s.state = PState.idle →
      noMidIdle s inputs →
      ((runW s inputs).2 = [] ∨ (runW s inputs).2 = [Event.started] ∨
        (runW s inputs).2 = [Event.started, Event.stopped]) ∧
      (runW s inputs).2.count Event.started ≤ 1 ∧
      (runW s inputs).2.count Event.stopped ≤ 1 ∧
      ((∃ k, k ≤ inputs.length ∧
          ((runW s (inputs.take k)).1.state = PState.recording ∨
            (runW s (inputs.take k)).1.state = PState.cooling)) →
        (runW s inputs).2.count Event.started = 1)) ∧
    (∀ (s : WState) (i : TickIn), Event.started ∈ (step s i).2 →
      s.state = PState.warming ∧ (step s i).1.state = PState.recording) := by
  refine ⟨fun inputs s hidle hmid => ?_, step_started⟩
  have hdisj := traversal_events inputs s (Or.inl hidle) hmid
  refine ⟨hdisj, ?_, ?_, ?_⟩
  · rcases hdisj with h | h | h <;> rw [h] <;> decide
  · rcases hdisj with h | h | h <;> rw [h] <;> decide
  · rintro ⟨k, hk, hreach⟩
    have hmem : Event.started ∈ (runW s inputs).2 := by
      refine reach_session_started inputs s
        (inSession_of_state s (Or.inl hidle)) ⟨k, hk, ?_⟩
      rcases hreach with h | h <;> simp [inSession, h]
    rcases hdisj with h | h | h
    · rw [h] at hmem
      exact absurd hmem (by simp)
    · rw [h]
      decide
    · rw [h]
      decide

/-- Witness for C3 at a concrete single traversal: six consecutive
    mic-active seconds leave `idle` at the first tick, never return to it
    inside the run, reach `recording` at the sixth prefix, and the emitted
    events carry exactly one `started` and no premature `stopped`. -/
theorem c3_witness :
    ((runW initWState ((List.range 6).map
        (fun k => { now := k, active := true, app := true }))).2 = [] ∨
      (runW initWState ((List.range 6).map
        (fun k => { now := k, active := true, app := true }))).2 =
        [Event.started] ∨
      (runW initWState ((List.range 6).map
        (fun k => { now := k, active := true, app := true }))).2 =
        [Event.started, Event.stopped]) ∧
    (runW initWState ((List.range 6).map
      (fun k => { now := k, active := true, app := true }))).2.count
        Event.started ≤ 1 ∧
    (runW initWState ((List.range 6).map
      (fun k => { now := k, active := true, app := true }))).2.count
        Event.stopped ≤ 1 ∧
    (runW initWState ((List.range 6).map
      (fun k => { now := k, active := true, app := true }))).2.count
        Event.started = 1 := by
  have hmid : noMidIdle initWState ((List.range 6).map
      (fun k => { now := k, active := true, app := true })) := by
    intro k hk0 hkl
    have hk6 : k < 6 := by simpa using hkl
    interval_cases k <;> decide
  have h := c3_events_per_traversal.1 ((List.range 6).map
    (fun k => { now := k, active := true, app := true })) initWState rfl hmid
  exact ⟨h.1, h.2.1, h.2.2.1, h.2.2.2 ⟨6, by decide, Or.inl (by decide)⟩⟩



theorem noLongActiveRun_tail (t : TickIn) (u : List TickIn)
    (h : noLongActiveRun (t :: u)) : noLongActiveRun u := by
  intro i hi j hj hij hall
  have := h (i + 1) (by simpa using Nat.succ_lt_succ hi)
    (j + 1) (by simpa using Nat.succ_lt_succ hj) (by omega) ?_
  · simpa using this
  · intro k hk hik hkj
    cases k with
    | zero => omega
    | succ k' =>
        have hk' : k' < u.length := by simpa using hk
        simpa using hall k' hk' (by omega) (by omega)

theorem noLongActiveRun_head (t : TickIn) (u : List TickIn)
    (h : noLongActiveRun (t :: u)) (ha : t.active = true) :
    warmSpanOk t.now u := by
  intro j hj hwin
  have := h 0 (by simp) (j + 1) (by simpa using Nat.succ_lt_succ hj)
    (by omega) ?_
  · simpa using this
  · intro k hk h0k hkj
    cases k with
    | zero => simpa using ha
    | succ k' =>
        have hk' : k' < u.length := by simpa using hk
        simpa using hwin k' hk' (by omega)

theorem warmSpanOk_tail (t0 : Nat) (t : TickIn) (u : List TickIn)
    (h : warmSpanOk t0 (t :: u)) (ha : t.active = true) :
    warmSpanOk t0 u := by
  intro j hj hwin
  have := h (j + 1) (by simpa using Nat.succ_lt_succ hj) ?_
  · simpa using this
  · intro k hk hkj
    cases k with
    | zero => simpa using ha
    | succ k' =>
        have hk' : k' < u.length := by simpa using hk
        simpa using hwin k' hk' (by omega)

theorem warmSpanOk_now (t0 : Nat) (t : TickIn) (u : List TickIn)
    (h : warmSpanOk t0 (t :: u)) (ha : t.active = true) :
    t.now - t0 < WARMUP_SECS := by
  have := h 0 (by simp) ?_
  · simpa using this
  · intro k hk hk0
    have : k = 0 := by omega
    subst this
    simpa using ha

theorem c4_aux (u : List TickIn) (s : WState)
    (hrun : noLongActiveRun u)
    (hinv : s.state = PState.idle ∨
      (s.state = PState.warming ∧
        ∃ t0, s.since = some t0 ∧ warmSpanOk t0 u)) :
    Event.started ∉ (runW s u).2 := by
  induction u generalizing s with
  | nil => simp [runW]
  | cons t u ih =>
      show Event.started ∉ (step s t).2 ++ (runW (step s t).1 u).2
      rcases hinv with hidle | ⟨hw, t0, hsince, hspan⟩
      · by_cases ha : t.active
        · have hstep : step s t =
              ({ s with state := PState.warming, since := some t.now,
                        noAppPolls := 0 }, []) := by
            simp [step, hidle, ha]
          rw [hstep]
          simp only [List.nil_append]
          exact ih _ (noLongActiveRun_tail t u hrun)
            (Or.inr ⟨rfl, t.now, rfl, noLongActiveRun_head t u hrun ha⟩)
        · have hstep : step s t = (s, []) := by
            simp [step, hidle, ha]
          rw [hstep]
          simp only [List.nil_append]
          exact ih _ (noLongActiveRun_tail t u hrun) (Or.inl hidle)
      · by_cases ha : t.active
        · by_cases he : WARMUP_SECS ≤ elapsedOf s t.now
          · exfalso
            have hlt := warmSpanOk_now t0 t u hspan ha
            rw [show elapsedOf s t.now = t.now - t0 by
              simp [elapsedOf, hsince]] at he
            omega
          · have hstep : step s t = (s, []) := by
              simp [step, hw, ha, he]
            rw [hstep]
            simp only [List.nil_append]
            exact ih _ (noLongActiveRun_tail t u hrun)
              (Or.inr ⟨hw, t0, hsince, warmSpanOk_tail t0 t u hspan ha⟩)
        · have hstep : step s t =
              ({ s with state := PState.idle, since := none }, []) := by
            simp [step, hw, ha]
          rw [hstep]
          simp only [List.nil_append]
          exact ih _ (noLongActiveRun_tail t u hrun) (Or.inl rfl)

/-- Claim C4: if the mic-active signal never stays true for `WARMUP_SECS`
    seconds before going false (every window of consecutive active ticks
    spans fewer than `WARMUP_SECS` seconds), the watcher never fires the
    `on_start` (ConversationStarted) callback. -/
theorem c4_warmup_debounce (inputs : List TickIn)
    (h : noLongActiveRun inputs) :
    Event.started ∉ (runW initWState inputs).2 :=
  c4_aux inputs initWState h (Or.inl rfl)

/-- Witness for C4: four consecutive active seconds followed by an inactive
    one satisfy the hypothesis and produce no `started` event. -/
theorem c4_witness :
    noLongActiveRun
      [{ now := 0, active := true, app := true },
       { now := 1, active := true, app := true },
       { now := 2, active := true, app := true },
       { now := 3, active := true, app := true },
       { now := 4, active := false, app := false }] ∧
    Event.started ∉ (runW initWState
      [{ now := 0, active := true, app := true },
       { now := 1, active := true, app := true },
       { now := 2, active := true, app := true },
       { now := 3, active := true, app := true },
       { now := 4, active := false, app := false }]).2 := by
  have h : noLongActiveRun
      [{ now := 0, active := true, app := true },
       { now := 1, active := true, app := true },
       { now := 2, active := true, app := true },
       { now := 3, active := true, app := true },
       { now := 4, active := false, app := false }] := by
    intro i hi j hj hij hall
    have hj5 : j < 5 := by simpa using hj
    by_cases h4 : j = 4
    · have hx := hall 4 (by decide) (by omega) (by omega)
      simp [List.getD, tick0] at hx
    · have hj3 : j ≤ 3 := by omega
      have hi3 : i ≤ 3 := by omega
      interval_cases j <;> interval_cases i <;> decide
  exact ⟨h, c4_warmup_debounce _ h⟩



/-- Counterexample to claim C1 as stated.  On the concrete trace
    `c1Inputs` (mic active with a meeting app for 31 one-second ticks, then
    silent) the machine enters `recording` (Active) at time 5 and leaves it
    for `cooling` at time 31 — an Active duration of 26 < MIN_SAVE_SECS —
    yet when the grace period expires the `on_stop` (ConversationEnded)
    callback IS fired, because the code gates it on
    `now - _rec_started`, measured at grace expiry, which is 36 - 5 = 31 ≥ 30. -/
theorem c1_counterexample :
    (runW initWState (c1Inputs.take 32)).1.state = PState.cooling ∧
    (runW initWState (c1Inputs.take 32)).1.recStarted = some 5 ∧
    (runW initWState (c1Inputs.take 32)).1.since = some 31 ∧
    31 - 5 < MIN_SAVE_SECS ∧
    (runW initWState c1Inputs).2 = [Event.started, Event.stopped] ∧
    (runW initWState c1Inputs).1.state = PState.idle := by
  refine ⟨by decide, by decide, by decide, by decide, by decide, by decide⟩

/-- Claim C1, amended: the duration that gates `ConversationEnded` is
    measured from the entry into `recording` (`_rec_started`) to the moment
    the cooling grace period expires — it therefore includes the grace
    window itself (and any time spent in `cooling`).  At grace expiry the
    state always returns to `idle`, and `on_stop` is emitted iff that
    grace-expiry duration reaches `MIN_SAVE_SECS`; in particular it is
    suppressed whenever `now - _rec_started < MIN_SAVE_SECS`. -/
theorem c1_short_session_amended (s : WState) (i : TickIn) (t0 r : Nat)
    (hst : s.state = PState.cooling) (hsince : s.since = some t0)
    (hrec : s.recStarted = some r)
    (hresume : ¬(i.active = true ∧ i.app = true))
    (hgrace : GRACE_SECS ≤ i.now - t0) :
    (step s i).1.state = PState.idle ∧
    (step s i).2 =
      (if MIN_SAVE_SECS ≤ i.now - r then [Event.stopped] else []) := by
  have hband : (i.active && i.app) = false := by
    cases hA : i.active <;> cases hB : i.app <;> simp_all
  have helapsed : elapsedOf s i.now = i.now - t0 := by
    simp [elapsedOf, hsince]
  constructor
  · simp [step, hst, hband, helapsed, hgrace, hrec]
  · simp [step, hst, hband, helapsed, hgrace, hrec]

/-- Witness for the amended C1, at the cooling state reached on the
    `c1Inputs` trace: grace expires at time 36 with `_rec_started = 5`,
    `36 - 5 = 31 ≥ MIN_SAVE_SECS`, so `on_stop` fires and the state
    returns to `idle`. -/
theorem c1_amended_witness :
    (step { state := PState.cooling, since := some 31, recStarted := some 5,
            noAppPolls := 0, appCounter := 0 }
          { now := 36, active := false, app := false }).1.state =
      PState.idle ∧
    (step { state := PState.cooling, since := some 31, recStarted := some 5,
            noAppPolls := 0, appCounter := 0 }
          { now := 36, active := false, app := false }).2 =
      (if MIN_SAVE_SECS ≤ 36 - 5 then [Event.stopped] else []) :=
  c1_short_session_amended _ _ 31 5 rfl rfl rfl (by simp) (by decide)



theorem find?_congr {α : Type _} (l : List α) (p q : α → Bool)
    (h : ∀ x ∈ l, p x = q x) : l.find? p = l.find? q := by
  induction l with
  | nil => rfl
  | cons a t ih =>
      cases hp : p a with
      | true =>
          rw [List.find?_cons_of_pos t hp,
            List.find?_cons_of_pos t ((h a (List.mem_cons_self a t)).symm.trans hp)]
      | false =>
          rw [List.find?_cons_of_neg t (by simp [hp]),
            List.find?_cons_of_neg t
              (by simp [← h a (List.mem_cons_self a t), hp]),
            ih (fun x hx => h x (List.mem_cons_of_mem a hx))]

theorem existsMaxOvl (seg : Seg) (l : List Turn) (hne : l ≠ []) :
    ∃ m ∈ l, ∀ e ∈ l, ovl seg e ≤ ovl seg m := by
  induction l with
  | nil => exact absurd rfl hne
  | cons a t ih =>
      cases t with
      | nil => exact ⟨a, List.mem_cons_self a [], by simp⟩
      | cons b u =>
          obtain ⟨m, hm, hmax⟩ := ih (by simp)
          by_cases h : ovl seg a ≤ ovl seg m
          · exact ⟨m, List.mem_cons_of_mem a hm, by
              intro e he
              rcases List.mem_cons.mp he with rfl | he
              · exact h
              · exact hmax e he⟩
          · refine ⟨a, List.mem_cons_self a _, ?_⟩
            intro e he
            rcases List.mem_cons.mp he with rfl | he
            · exact le_refl _
            · exact le_of_lt (lt_of_le_of_lt (hmax e he) (lt_of_not_le h))

theorem bestLoop_find (seg : Seg) (turns : List Turn) (bs : Option String)
    (bo : ℚ) :
    (bestLoop seg turns (bs, bo)).1 =
      match turns.find? (fun d => decide (bo < ovl seg d ∧
          ∀ e ∈ turns, ovl seg e ≤ ovl seg d)) with
      | some d => some d.speaker
      | none => bs := by
  induction turns generalizing bs bo with
  | nil => rfl
  | cons d rest ih =>
      by_cases h1 : bo < ovl seg d
      · by_cases h2 : ∀ e ∈ rest, ovl seg e ≤ ovl seg d
        · have hpd : decide (bo < ovl seg d ∧
              ∀ e ∈ d :: rest, ovl seg e ≤ ovl seg d) = true := by
            simp only [decide_eq_true_eq]
            refine ⟨h1, ?_⟩
            intro e he
            rcases List.mem_cons.mp he with rfl | he
            · exact le_refl _
            · exact h2 e he
          rw [show bestLoop seg (d :: rest) (bs, bo) =
              bestLoop seg rest (some d.speaker, ovl seg d) by
            simp [bestLoop, h1]]
          rw [List.find?_cons_of_pos rest hpd, ih]
          have hnone : rest.find? (fun x => decide (ovl seg d < ovl seg x ∧
              ∀ e ∈ rest, ovl seg e ≤ ovl seg x)) = none := by
            rw [List.find?_eq_none]
            intro x hx
            simp only [decide_eq_true_eq, not_and]
            intro hlt
            exact absurd hlt (not_lt_of_le (h2 x hx))
          rw [hnone]
        · push_neg at h2
          obtain ⟨e0, he0, hgt⟩ := h2
          have hpd : decide (bo < ovl seg d ∧
              ∀ e ∈ d :: rest, ovl seg e ≤ ovl seg d) = false := by
            simp only [decide_eq_false_iff_not, not_and]
            intro _
            intro hall
            exact absurd (hall e0 (List.mem_cons_of_mem d he0)) (not_le_of_lt hgt)
          rw [show bestLoop seg (d :: rest) (bs, bo) =
              bestLoop seg rest (some d.speaker, ovl seg d) by
            simp [bestLoop, h1]]
          rw [List.find?_cons_of_neg rest (by rw [hpd]; exact Bool.false_ne_true), ih]
          have hcongr : rest.find? (fun x => decide (bo < ovl seg x ∧
              ∀ e ∈ d :: rest, ovl seg e ≤ ovl seg x)) =
              rest.find? (fun x => decide (ovl seg d < ovl seg x ∧
              ∀ e ∈ rest, ovl seg e ≤ ovl seg x)) := by
            apply find?_congr
            intro x hx
            simp only [decide_eq_decide]
            constructor
            · rintro ⟨hbo, hall⟩
              refine ⟨lt_of_lt_of_le hgt (hall e0 (List.mem_cons_of_mem d he0)), ?_⟩
              intro e he
              exact hall e (List.mem_cons_of_mem d he)
            · rintro ⟨hd, hall⟩
              refine ⟨lt_trans h1 hd, ?_⟩
              intro e he
              rcases List.mem_cons.mp he with rfl | he
              · exact le_of_lt hd
              · exact hall e he
          rw [hcongr]
          have hsome : (rest.find? (fun x => decide (ovl seg d < ovl seg x ∧
              ∀ e ∈ rest, ovl seg e ≤ ovl seg x))).isSome := by
            rw [List.find?_isSome]
            obtain ⟨m, hm, hmax⟩ := existsMaxOvl seg rest
              (by intro h; subst h; exact absurd he0 (List.not_mem_nil e0))
            exact ⟨m, hm, by
              simp only [decide_eq_true_eq]
              exact ⟨lt_of_lt_of_le hgt (hmax e0 he0), hmax⟩⟩
          obtain ⟨x, hx⟩ := Option.isSome_iff_exists.mp hsome
          rw [hx]
      · have hpd : decide (bo < ovl seg d ∧
            ∀ e ∈ d :: rest, ovl seg e ≤ ovl seg d) = false := by
          simp only [decide_eq_false_iff_not, not_and]
          intro hbo
          exact absurd hbo h1
        rw [show bestLoop seg (d :: rest) (bs, bo) =
            bestLoop seg rest (bs, bo) by
          simp [bestLoop, h1]]
        rw [List.find?_cons_of_neg rest (by rw [hpd]; exact Bool.false_ne_true), ih]
        have hcongr : rest.find? (fun x => decide (bo < ovl seg x ∧
            ∀ e ∈ d :: rest, ovl seg e ≤ ovl seg x)) =
            rest.find? (fun x => decide (bo < ovl seg x ∧
            ∀ e ∈ rest, ovl seg e ≤ ovl seg x)) := by
          apply find?_congr
          intro x hx
          simp only [decide_eq_decide]
          constructor
          · rintro ⟨hbo, hall⟩
            exact ⟨hbo, fun e he => hall e (List.mem_cons_of_mem d he)⟩
          · rintro ⟨hbo, hall⟩
            refine ⟨hbo, ?_⟩
            intro e he
            rcases List.mem_cons.mp he with rfl | he
            · exact le_of_lt (lt_of_le_of_lt (not_lt.mp h1) hbo)
            · exact hall e he
        rw [hcongr]

theorem mergeSeg_spec (seg : Seg) (turns : List Turn)
    (h : ∀ d ∈ turns, d.speaker ≠ "") :
    mergeSeg seg turns = { seg with speaker := some (specC2Label seg turns) } := by
  unfold mergeSeg specC2Label
  rw [bestLoop_find]
  cases hf : turns.find? (fun d => decide (0 < ovl seg d ∧
      ∀ e ∈ turns, ovl seg e ≤ ovl seg d)) with
  | none => rfl
  | some d =>
      have hd : d.speaker ≠ "" := h d (List.mem_of_find?_eq_some hf)
      simp [pythonOr, hd]

/-- Counterexample to claim C2 as stated: for segment `[10,12]` and the
    single turn `{0,11,""}` the turn's overlap `min(12,11) - max(10,0) = 1`
    is strictly positive (hence strictly greatest), yet `merge` labels the
    segment `"Unknown"`, not with that turn's (empty) speaker label:
    `best_speaker or "Unknown"` in the source treats a falsy label like the
    missing-turn sentinel.  -/
theorem c2_counterexample :
    0 < ovl { start := 10, stop := 12, text := "hi", speaker := none }
        { start := 0, stop := 11, speaker := "" } ∧
    merge [{ start := 10, stop := 12, text := "hi", speaker := none }]
        [{ start := 0, stop := 11, speaker := "" }] =
      [{ start := 10, stop := 12, text := "hi", speaker := some ("Unknown") }] ∧
    ("Unknown" : String) ≠
      Turn.speaker { start := 0, stop := 11, speaker := "" } := by
  refine ⟨by norm_num [ovl, pymin, pymax], ?_, by decide⟩
  norm_num [merge, mergeSeg, bestLoop, ovl, pymin, pymax, pythonOr]

/-- Claim C2, amended: provided every diarization turn carries a non-empty
    speaker label (as the diarization engine produces), `merge` assigns to
    each segment the label of the first turn with strictly greatest,
    strictly positive overlap `min(segment.end, turn.end) -
    max(segment.start, turn.start)`, and the sentinel `"Unknown"` when no
    turn has positive overlap; a turn whose label is the empty string would
    instead fall back to `"Unknown"` even when it wins the overlap
    comparison. -/
theorem c2_merge_amended (transcript : List Seg) (turns : List Turn)
    (h : ∀ d ∈ turns, d.speaker ≠ "") :
    merge transcript turns =
      transcript.map
        (fun seg => { seg with speaker := some (specC2Label seg turns) }) := by
  unfold merge
  exact List.map_congr_left (fun seg _ => mergeSeg_spec seg turns h)

/-- Witness for the amended C2 at the specification's own example: segment
    `[10,12]`, turns `A = [0,11]` and `B = [11,20]`; both overlaps equal 1
    and the tie resolves to the first turn `"A"`. -/
theorem c2_amended_witness :
    (∀ d ∈ ([{ start := 0, stop := 11, speaker := "A" },
             { start := 11, stop := 20, speaker := "B" }] : List Turn),
      d.speaker ≠ "") ∧
    merge [{ start := 10, stop := 12, text := "hi", speaker := none }]
        [{ start := 0, stop := 11, speaker := "A" },
         { start := 11, stop := 20, speaker := "B" }] =
      [{ start := 10, stop := 12, text := "hi",
         speaker := some (specC2Label
           { start := 10, stop := 12, text := "hi", speaker := none }
           [{ start := 0, stop := 11, speaker := "A" },
            { start := 11, stop := 20, speaker := "B" }]) }] ∧
    specC2Label { start := 10, stop := 12, text := "hi", speaker := none }
        [{ start := 0, stop := 11, speaker := "A" },
         { start := 11, stop := 20, speaker := "B" }] = "A" :=
  ⟨by decide, c2_merge_amended _ _ (by decide),
   by norm_num [specC2Label, List.find?, ovl, pymin, pymax]⟩



/-- Counterexample to claim C5 as stated: starting from the initial server
    state, `start`, `stop`, `start`, `stop` leaves TWO `_process_audio`
    runs in flight.  The second submission arrives while `_processing` is
    still `true`, yet it is accepted (not rejected — no `AlreadyProcessing`
    outcome exists in the code) and a second concurrent worker thread is
    spawned. -/
theorem c5_counterexample :
    ((stop_recording ((start_recording initMcp).1) true).1).processing = true ∧
    ((stop_recording ((start_recording initMcp).1) true).1).inFlight = 1 ∧
    (start_recording ((stop_recording ((start_recording initMcp).1) true).1)).2 =
      StartOutcome.started ∧
    ((start_recording ((stop_recording ((start_recording initMcp).1)
      true).1)).1).processing = true ∧
    (stop_recording ((start_recording ((stop_recording ((start_recording
      initMcp).1) true).1)).1) true).2 = StopOutcome.accepted ∧
    (stop_recording ((start_recording ((stop_recording ((start_recording
      initMcp).1) true).1)).1) true).1.inFlight = 2 := by
  refine ⟨rfl, rfl, rfl, rfl, rfl, rfl⟩

/-- Claim C5, amended: `stop_recording` rejects a submission only when no
    recording is active (`"Not currently recording."`); it never consults
    `_processing`, so a submission made while a previous run is still in
    flight is accepted, overwrites the single-slot status and increments the
    number of concurrent `_process_audio` runs. -/
theorem c5_submit_amended (s : McpSt) (hasAudio : Bool) :
    ((stop_recording s hasAudio).2 = StopOutcome.notRecording ↔
      s.recorderActive = false) ∧
    (s.recorderActive = true → hasAudio = true →
      (stop_recording s hasAudio).2 = StopOutcome.accepted ∧
      (stop_recording s hasAudio).1.processing = true ∧
      (stop_recording s hasAudio).1.inFlight = s.inFlight + 1) := by
  cases hr : s.recorderActive <;> cases hasAudio <;>
    simp [stop_recording, hr]

/-- Witness for the amended C5 at a state with a run already in flight
    (`processing = true`, one worker alive) and a live recording. -/
theorem c5_amended_witness :
    (stop_recording { recorderActive := true, processing := true,
                      lastResult := none, lastError := none,
                      clipExists := true, writes := [], inFlight := 1 }
      true).2 = StopOutcome.accepted ∧
    (stop_recording { recorderActive := true, processing := true,
                      lastResult := none, lastError := none,
                      clipExists := true, writes := [], inFlight := 1 }
      true).1.processing = true ∧
    (stop_recording { recorderActive := true, processing := true,
                      lastResult := none, lastError := none,
                      clipExists := true, writes := [], inFlight := 1 }
      true).1.inFlight = 1 + 1 := by
  have h := (c5_submit_amended { recorderActive := true, processing := true,
                                 lastResult := none, lastError := none,
                                 clipExists := true, writes := [],
                                 inFlight := 1 } true).2 rfl rfl
  exact ⟨h.1, h.2.1, h.2.2⟩

/-- Counterexample to claim C6 as stated: with capture active and one frame
    buffered, a second `Recorder.start` empties the frame buffer (the
    in-progress session's state IS changed) and overwrites `_stream` with a
    fresh stream while the previous stream (id 0) is still open — it is
    never stopped or closed, i.e. it leaks. -/
theorem c6_counterexample :
    (Recorder.callback (Recorder.start (Recorder.init none)) [0]).recording
      = true ∧
    (Recorder.callback (Recorder.start (Recorder.init none)) [0]).frames
      = [[0]] ∧
    (Recorder.callback (Recorder.start (Recorder.init none)) [0]).stream
      = some 0 ∧
    (Recorder.start (Recorder.callback (Recorder.start (Recorder.init none))
      [0])).frames = [] ∧
    ([[0]] : List (List ℚ)) ≠ [] ∧
    (Recorder.start (Recorder.callback (Recorder.start (Recorder.init none))
      [0])).stream = some 1 ∧
    0 ∈ (Recorder.start (Recorder.callback (Recorder.start
      (Recorder.init none)) [0])).openStreams := by
  refine ⟨rfl, rfl, rfl, rfl, by simp, rfl, by decide⟩

/-- Claim C6, amended: calling `Recorder.start` while capture is already
    active is NOT a no-op — it discards every already-buffered frame and
    replaces the stream reference with a freshly opened stream, and it does
    leak the prior stream: the old stream stays open (still in the open-
    stream set) with nothing referencing it. -/
theorem c6_start_amended (s : Recorder.RecSt) (i : Nat)
    (_hrec : s.recording = true) (_hstream : s.stream = some i)
    (hopen : i ∈ s.openStreams) (hlt : i < s.nextId) :
    (Recorder.start s).recording = true ∧
    (Recorder.start s).frames = [] ∧
    i ∈ (Recorder.start s).openStreams ∧
    (Recorder.start s).stream = some s.nextId ∧
    (Recorder.start s).stream ≠ some i := by
  refine ⟨rfl, rfl, List.mem_append_left _ hopen, rfl, ?_⟩
  simp only [Recorder.start]
  intro hcon
  have : s.nextId = i := by
    injection hcon
  omega

/-- Witness for the amended C6 at the concrete mid-capture state with one
    buffered frame and open stream id 0. -/
theorem c6_amended_witness :
    (Recorder.start (Recorder.callback (Recorder.start (Recorder.init none))
      [0])).recording = true ∧
    (Recorder.start (Recorder.callback (Recorder.start (Recorder.init none))
      [0])).frames = [] ∧
    0 ∈ (Recorder.start (Recorder.callback (Recorder.start
      (Recorder.init none)) [0])).openStreams ∧
    (Recorder.start (Recorder.callback (Recorder.start (Recorder.init none))
      [0])).stream = some (Recorder.callback (Recorder.start
      (Recorder.init none)) [0]).nextId ∧
    (Recorder.start (Recorder.callback (Recorder.start (Recorder.init none))
      [0])).stream ≠ some 0 :=
  c6_start_amended _ 0 rfl rfl (by decide) (by decide)

/-- Claim C7: when transcription raises, `_process_audio` records the error
    message in `_last_error` (the `Failed` status), deletes the temporary
    clip, writes nothing to storage, leaves `_last_result` untouched and
    clears `_processing`. -/
theorem c7_transcription_failure (st : McpSt) (e : String) (hf : Option String)
    (dr : Except String (List Turn)) (dateHeader dateFile meetingName : String)
    (saveErr : Option String) :
    (processAudio st (Except.error e) hf dr dateHeader dateFile meetingName
      saveErr).lastError = some e ∧
    (processAudio st (Except.error e) hf dr dateHeader dateFile meetingName
      saveErr).writes = st.writes ∧
    (processAudio st (Except.error e) hf dr dateHeader dateFile meetingName
      saveErr).clipExists = false ∧
    (processAudio st (Except.error e) hf dr dateHeader dateFile meetingName
      saveErr).processing = false ∧
    (processAudio st (Except.error e) hf dr dateHeader dateFile meetingName
      saveErr).lastResult = st.lastResult :=
  ⟨rfl, rfl, rfl, rfl, rfl⟩

/-- Claim C8: `Recorder.stop` with zero captured frames returns no clip
    (`None`) — never an empty-but-present clip — and still releases the
    stream resource: the stream reference is dropped and the stream is
    closed (removed from the open set). -/
theorem c8_stop_no_frames (s : Recorder.RecSt) (h : s.frames = []) :
    (Recorder.stop s).2 = none ∧
    (Recorder.stop s).1.stream = none ∧
    (Recorder.stop s).1.recording = false ∧
    (∀ i, s.stream = some i →
      (Recorder.stop s).1.openStreams = s.openStreams.erase i) := by
  cases hs : s.stream <;> simp [Recorder.stop, hs, h]

/-- Witness for C8: `stop()` immediately after `start()` on a fresh
    recorder — zero callback invocations — yields no clip and closes the
    just-opened stream (id 0). -/
theorem c8_witness :
    (Recorder.stop (Recorder.start (Recorder.init none))).2 = none ∧
    (Recorder.stop (Recorder.start (Recorder.init none))).1.stream = none ∧
    (Recorder.stop (Recorder.start (Recorder.init none))).1.recording
      = false ∧
    (Recorder.stop (Recorder.start (Recorder.init none))).1.openStreams =
      ((Recorder.start (Recorder.init none)).openStreams).erase 0 := by
  have h := c8_stop_no_frames (Recorder.start (Recorder.init none)) rfl
  exact ⟨h.1, h.2.1, h.2.2.1, h.2.2.2 0 rfl⟩

/-- Claim C10: transcription succeeding with an empty segment list still
    completes the run: diarization is skipped (the diarization outcome is
    irrelevant to the result), the clip is deleted, a header-only
    transcript with duration `00:00` and no body lines is persisted, and
    the run ends in the successful `Done` state (`_last_result` set,
    `_last_error` untouched, `_processing` cleared). -/
theorem c10_empty_segments (st : McpSt) (hf : Option String)
    (dr dr' : Except String (List Turn))
    (dateHeader dateFile meetingName : String) :
    processAudio st (Except.ok []) hf dr dateHeader dateFile meetingName
        none =
      processAudio st (Except.ok []) hf dr' dateHeader dateFile meetingName
        none ∧
    processAudio st (Except.ok []) hf dr dateHeader dateFile meetingName
        none =
      { st with processing := false, clipExists := false,
                writes := st.writes ++
                  [(transcriptFileName meetingName dateFile,
                    String.intercalate ("\n")
                      [String.append ("Meeting: ") meetingName,
                       String.append ("Date:    ") dateHeader,
                       String.append ("Duration:") ("00:00"),
                       "", sepLine, ""])],
                lastResult := some (String.append ("Saved: ")
                  (String.append (transcriptFileName meetingName dateFile)
                    (String.append ("\n\n")
                      (previewOf (String.intercalate ("\n")
                        [String.append ("Meeting: ") meetingName,
                         String.append ("Date:    ") dateHeader,
                         String.append ("Duration:") ("00:00"),
                         "", sepLine, ""]))))) } := by
  cases hf <;> exact ⟨rfl, rfl⟩


end Trnscrb
